import Mathlib

/-!
Verification development for LibMIR (src/libmir.py), a single-file music
information retrieval pipeline built on top of an audio/DSP library.

Samples are modelled as exact rationals.  Parts of the pipeline whose code
lives only in the external DSP library (framing, spectral transform, RMS,
zero-crossing rate, centroid, dB conversion) are modelled from the spec;
transcendental ingredients (trigonometric bases, Hann window, filterbank
weights, square root, log10) are abstract parameters collected in `DSP`,
so theorems about them hold for every choice of those parameters.
-/

namespace LibMIR

/-- np.max over a list of rationals (0 on the empty list, which numpy rejects;
all uses below are on non-empty data). -/
def npMax : List ℚ → ℚ
  | [] => 0
  | x :: xs => xs.foldl max x

/-- np.min over a list of rationals. -/
def npMin : List ℚ → ℚ
  | [] => 0
  | x :: xs => xs.foldl min x

/-- np.mean over a list of rationals. -/
def npMean (l : List ℚ) : ℚ := l.sum / (l.length : ℚ)

/-- Source line 41: `volume_range = np.max(raw_volume) - np.min(raw_volume)`. -/
def volume_range (raw : List ℚ) : ℚ := npMax raw - npMin raw

/-- Source line 43: `volume_envelope = raw_volume if volume_range == 0 else
(raw_volume - np.min(raw_volume)) / volume_range`. -/
def volume_envelope (raw : List ℚ) : List ℚ :=
  if volume_range raw = 0 then raw
  else raw.map (fun x => (x - npMin raw) / volume_range raw)

section MaxMinLemmas

theorem foldl_max_le (l : List ℚ) (a c : ℚ) (ha : a ≤ c) (h : ∀ x ∈ l, x ≤ c) :
    l.foldl max a ≤ c := by
  induction l generalizing a with
  | nil => exact ha
  | cons b t ih =>
    exact ih (max a b) (max_le ha (h b (List.mem_cons_self b t)))
      (fun x hx => h x (List.mem_cons_of_mem b hx))

theorem le_foldl_max_init (l : List ℚ) (a : ℚ) : a ≤ l.foldl max a := by
  induction l generalizing a with
  | nil => exact le_refl a
  | cons b t ih => exact le_trans (le_max_left a b) (ih (max a b))

theorem le_foldl_max_mem (l : List ℚ) (a : ℚ) : ∀ x ∈ l, x ≤ l.foldl max a := by
  induction l generalizing a with
  | nil => intro x hx; cases hx
  | cons b t ih =>
    intro x hx
    rcases List.mem_cons.1 hx with h | h
    · subst h
      exact le_trans (le_max_right a x) (le_foldl_max_init t (max a x))
    · exact ih (max a b) x h

theorem foldl_max_mem (l : List ℚ) (a : ℚ) : l.foldl max a = a ∨ l.foldl max a ∈ l := by
  induction l generalizing a with
  | nil => exact Or.inl rfl
  | cons b t ih =>
    rcases ih (max a b) with h | h
    · rcases le_total a b with hab | hab
      · right
        rw [List.foldl_cons, h, max_eq_right hab]
        exact List.mem_cons_self b t
      · left
        rw [List.foldl_cons, h, max_eq_left hab]
    · exact Or.inr (List.mem_cons_of_mem b h)

theorem le_foldl_min_rev (l : List ℚ) (a c : ℚ) (ha : c ≤ a) (h : ∀ x ∈ l, c ≤ x) :
    c ≤ l.foldl min a := by
  induction l generalizing a with
  | nil => exact ha
  | cons b t ih =>
    exact ih (min a b) (le_min ha (h b (List.mem_cons_self b t)))
      (fun x hx => h x (List.mem_cons_of_mem b hx))

theorem foldl_min_le_init (l : List ℚ) (a : ℚ) : l.foldl min a ≤ a := by
  induction l generalizing a with
  | nil => exact le_refl a
  | cons b t ih => exact le_trans (ih (min a b)) (min_le_left a b)

theorem foldl_min_le_mem (l : List ℚ) (a : ℚ) : ∀ x ∈ l, l.foldl min a ≤ x := by
  induction l generalizing a with
  | nil => intro x hx; cases hx
  | cons b t ih =>
    intro x hx
    rcases List.mem_cons.1 hx with h | h
    · subst h
      exact le_trans (foldl_min_le_init t (min a x)) (min_le_right a x)
    · exact ih (min a b) x h

theorem foldl_min_mem (l : List ℚ) (a : ℚ) : l.foldl min a = a ∨ l.foldl min a ∈ l := by
  induction l generalizing a with
  | nil => exact Or.inl rfl
  | cons b t ih =>
    rcases ih (min a b) with h | h
    · rcases le_total a b with hab | hab
      · left
        rw [List.foldl_cons, h, min_eq_left hab]
      · right
        rw [List.foldl_cons, h, min_eq_right hab]
        exact List.mem_cons_self b t
    · exact Or.inr (List.mem_cons_of_mem b h)

theorem npMax_mem (l : List ℚ) (h : l ≠ []) : npMax l ∈ l := by
  match l with
  | [] => exact absurd rfl h
  | x :: xs =>
    rcases foldl_max_mem xs x with h1 | h1
    · rw [npMax, h1]; exact List.mem_cons_self x xs
    · exact List.mem_cons_of_mem x h1

theorem le_npMax (l : List ℚ) (x : ℚ) (hx : x ∈ l) : x ≤ npMax l := by
  match l with
  | [] => cases hx
  | y :: ys =>
    rcases List.mem_cons.1 hx with h | h
    · subst h; exact le_foldl_max_init ys x
    · exact le_foldl_max_mem ys y x h

theorem npMax_le (l : List ℚ) (c : ℚ) (h : l ≠ []) (hub : ∀ x ∈ l, x ≤ c) :
    npMax l ≤ c := hub (npMax l) (npMax_mem l h)

theorem npMin_mem (l : List ℚ) (h : l ≠ []) : npMin l ∈ l := by
  match l with
  | [] => exact absurd rfl h
  | x :: xs =>
    rcases foldl_min_mem xs x with h1 | h1
    · rw [npMin, h1]; exact List.mem_cons_self x xs
    · exact List.mem_cons_of_mem x h1

theorem npMin_le (l : List ℚ) (x : ℚ) (hx : x ∈ l) : npMin l ≤ x := by
  match l with
  | [] => cases hx
  | y :: ys =>
    rcases List.mem_cons.1 hx with h | h
    · subst h; exact foldl_min_le_init ys x
    · exact foldl_min_le_mem ys y x h

theorem le_npMin (l : List ℚ) (c : ℚ) (h : l ≠ []) (hlb : ∀ x ∈ l, c ≤ x) :
    c ≤ npMin l := hlb (npMin l) (npMin_mem l h)

theorem npMax_eq_zero (l : List ℚ) (h : ∀ x ∈ l, x = 0) : npMax l = 0 := by
  match l with
  | [] => rfl
  | x :: xs =>
    have := npMax_mem (x :: xs) (by simp)
    exact h _ this

theorem npMin_eq_zero (l : List ℚ) (h : ∀ x ∈ l, x = 0) : npMin l = 0 := by
  match l with
  | [] => rfl
  | x :: xs =>
    have := npMin_mem (x :: xs) (by simp)
    exact h _ this

theorem foldl_max_map (f : ℚ → ℚ) (hf : ∀ x y, f (max x y) = max (f x) (f y))
    (l : List ℚ) (a : ℚ) : (l.map f).foldl max (f a) = f (l.foldl max a) := by
  induction l generalizing a with
  | nil => rfl
  | cons b t ih =>
    simp only [List.map_cons, List.foldl_cons]
    rw [← hf a b, ih (max a b)]

theorem foldl_min_map (f : ℚ → ℚ) (hf : ∀ x y, f (min x y) = min (f x) (f y))
    (l : List ℚ) (a : ℚ) : (l.map f).foldl min (f a) = f (l.foldl min a) := by
  induction l generalizing a with
  | nil => rfl
  | cons b t ih =>
    simp only [List.map_cons, List.foldl_cons]
    rw [← hf a b, ih (min a b)]

theorem npMax_map (f : ℚ → ℚ) (hf : ∀ x y, f (max x y) = max (f x) (f y))
    (l : List ℚ) (h : l ≠ []) : npMax (l.map f) = f (npMax l) := by
  match l with
  | [] => exact absurd rfl h
  | x :: xs =>
    simp only [npMax, List.map_cons]
    exact foldl_max_map f hf xs x

theorem npMin_map (f : ℚ → ℚ) (hf : ∀ x y, f (min x y) = min (f x) (f y))
    (l : List ℚ) (h : l ≠ []) : npMin (l.map f) = f (npMin l) := by
  match l with
  | [] => exact absurd rfl h
  | x :: xs =>
    simp only [npMin, List.map_cons]
    exact foldl_min_map f hf xs x

theorem npMin_le_npMax (l : List ℚ) (h : l ≠ []) : npMin l ≤ npMax l :=
  le_trans (npMin_le l (npMax l) (npMax_mem l h)) (le_refl _)

end MaxMinLemmas

/-- Modelled from the spec: abstract DSP parameters of the underlying library
(the library's source is not part of this repository).  `re`/`im` are the real
and imaginary parts of the short-time transform basis, `win` the cosine-taper
window, `melW` the triangular mel filterbank weights (band by bin), `fold` the
chroma folding weights (pitch class by bin), `dct` the discrete-cosine basis,
`sqrt` the square root and `log10` the base-10 logarithm.  These values are
transcendental reals in the library; keeping them abstract lets every theorem
hold for all choices. -/
structure DSP where
  nBins : ℕ
  re : ℕ → ℕ → ℚ
  im : ℕ → ℕ → ℚ
  win : ℕ → ℚ
  nMels : ℕ
  melW : ℕ → ℕ → ℚ
  fold : ℕ → ℕ → ℚ
  dct : ℕ → ℕ → ℚ
  sqrt : ℚ → ℚ
  log10 : ℚ → ℚ

/-- Modelled from the spec (section 4.2, centered framing): the waveform is
zero-padded by half a window (1024 samples) on each side so that the first and
last frames are centered on sample 0 and sample N-1. -/
def pad (w : List ℚ) : List ℚ :=
  List.replicate 1024 0 ++ w ++ List.replicate 1024 0

/-- Modelled from the spec: the number of analysis frames obtained by sliding a
2048-sample window with hop 512 over the padded signal, via the frame-count
formula applied to the padded length. -/
def frameCount (w : List ℚ) : ℕ := 1 + ((pad w).length - 2048) / 512

/-- Modelled from the spec: frame `t` of the centered framing (2048 samples
starting at offset `512 * t` of the padded signal). -/
def frame (w : List ℚ) (t : ℕ) : List ℚ := (((pad w).drop (512 * t)).take 2048)

/-- Weighted sum `Σ coef i * xs[i]` (index-aware fold used for the transform,
the filterbank, the chroma folding and the DCT). -/
def wdotAux (coef : ℕ → ℚ) : ℕ → List ℚ → ℚ
  | _, [] => 0
  | i, x :: xs => coef i * x + wdotAux coef (i + 1) xs

/-- Weighted sum starting at index 0. -/
def wdot (coef : ℕ → ℚ) (xs : List ℚ) : ℚ := wdotAux coef 0 xs

/-- Modelled from the spec: power of transform bin `k` at frame `t`,
`power = |complex amplitude|^2`, with the windowed frame analysed against the
abstract basis. -/
def powerEntry (D : DSP) (w : List ℚ) (k t : ℕ) : ℚ :=
  (wdot (fun i => D.win i * D.re k i) (frame w t)) ^ 2 +
  (wdot (fun i => D.win i * D.im k i) (frame w t)) ^ 2

/-- Modelled from the spec: one row (all bins) of the power grid at frame `t`. -/
def powerRow (D : DSP) (w : List ℚ) (t : ℕ) : List ℚ :=
  (List.range D.nBins).map (fun k => powerEntry D w k t)

/-- Modelled from the spec: the full power grid, frame by frame. -/
def powerGrid (D : DSP) (w : List ℚ) : List (List ℚ) :=
  (List.range (frameCount w)).map (powerRow D w)

/-- Modelled from the spec: mel-band energies of one power-grid row. -/
def melRow (D : DSP) (prow : List ℚ) : List ℚ :=
  (List.range D.nMels).map (fun m => wdot (fun k => D.melW m k) prow)

/-- Modelled from the spec: the mel-band energy grid, frame by frame. -/
def melGrid (D : DSP) (w : List ℚ) : List (List ℚ) :=
  (powerGrid D w).map (melRow D)

/-- Maximum entry of a 2-D grid, i.e. np.max over the whole array. -/
def gridMax (g : List (List ℚ)) : ℚ := npMax g.flatten

/-- Modelled from the spec: dB conversion `10*log10(value/reference)` with
reference equal to the maximum energy of the grid itself (source line 25 passes
`ref=np.max`). -/
def power_to_db (log10 : ℚ → ℚ) (g : List (List ℚ)) : List (List ℚ) :=
  g.map (List.map (fun v => 10 * log10 (v / gridMax g)))

/-- Modelled from the spec: chroma folding of one power-grid row into 12
pitch-class bins with nonnegative folding weights. -/
def chromaRow (D : DSP) (prow : List ℚ) : List ℚ :=
  (List.range 12).map (fun c => wdot (fun k => D.fold c k) prow)

/-- Modelled from the spec: timbral (cepstral) coefficients of one mel row —
log of the mel energies followed by a DCT, first 13 coefficients kept; an
all-zero frame degrades to all-zero coefficients instead of taking log 0. -/
def mfccRow (D : DSP) (mrow : List ℚ) : List ℚ :=
  if ∀ x ∈ mrow, x = 0 then List.replicate 13 0
  else (List.range 13).map (fun c => wdot (fun m => D.dct c m) (mrow.map D.log10))

/-- Modelled from the spec: per-frame spectral centroid
`sum(freq_i * mag_i) / sum(mag_i)`, defined as 0 when the denominator is 0. -/
def centroidFrame (freqs mags : List ℚ) : ℚ :=
  if mags.sum = 0 then 0 else (List.zipWith (fun f m => f * m) freqs mags).sum / mags.sum

/-- Modelled from the spec: bin center frequencies `k * sr / 2048`. -/
def binFreqs (D : DSP) (sr : ℚ) : List ℚ :=
  (List.range D.nBins).map (fun k => sr * (k : ℚ) / 2048)

/-- Modelled from the spec: brightness sequence — the spectral centroid of each
frame's magnitude spectrum (magnitude = sqrt of power). -/
def brightnessSeq (D : DSP) (w : List ℚ) (sr : ℚ) : List ℚ :=
  (powerGrid D w).map (fun prow => centroidFrame (binFreqs D sr) (prow.map D.sqrt))

/-- Mean of the squares of a frame. -/
def meanSq (f : List ℚ) : ℚ := (f.map (fun x => x * x)).sum / (f.length : ℚ)

/-- Modelled from the spec: RMS loudness sequence — per frame the square root
of the mean square, framed with window 2048 / hop 512. -/
def rmsSeq (sqrt : ℚ → ℚ) (w : List ℚ) : List ℚ :=
  (List.range (frameCount w)).map (fun t => sqrt (meanSq (frame w t)))

/-- Modelled from the spec: zero-crossing rate of one frame — the fraction of
adjacent sample pairs with opposite sign. -/
def zcrFrame (f : List ℚ) : ℚ :=
  (((f.zip f.tail).countP (fun p => decide (p.1 < 0) != decide (p.2 < 0)) : ℕ) : ℚ) /
    ((f.length - 1 : ℕ) : ℚ)

/-- Modelled from the spec: zero-crossing-rate sequence, framed like RMS. -/
def zcrSeq (w : List ℚ) : List ℚ :=
  (List.range (frameCount w)).map (fun t => zcrFrame (frame w t))

/-- Modelled from the spec: spectral flux at frame `t` — half-wave rectified
frame-to-frame energy increase summed across bins (0 for the first frame). -/
def fluxAt (D : DSP) (w : List ℚ) : ℕ → ℚ
  | 0 => 0
  | Nat.succ s =>
      ((List.range D.nBins).map
        (fun k => max 0 (powerEntry D w k (s + 1) - powerEntry D w k s))).sum

/-- Modelled from the spec: onset-strength envelope. -/
def onsetSeq (D : DSP) (w : List ℚ) : List ℚ :=
  (List.range (frameCount w)).map (fluxAt D w)

/-- Autocorrelation of the onset envelope at a given lag. -/
def autocorr (env : List ℚ) (lag : ℕ) : ℚ :=
  ((env.zip (env.drop lag)).map (fun p => p.1 * p.2)).sum

/-- Lag in `1..len-1` maximizing the autocorrelation. -/
def bestLag (env : List ℚ) : ℕ :=
  ((List.range env.length).drop 1).foldl
    (fun best l => if autocorr env best < autocorr env l then l else best) 1

/-- Modelled from the spec: tempo estimate — dominant periodicity of the onset
envelope converted to BPM; on silence (all-zero envelope) the documented
placeholder tempo 0 is returned instead of failing. -/
def tempoOf (sr : ℚ) (env : List ℚ) : ℚ :=
  if ∀ x ∈ env, x = 0 then 0 else 60 * sr / (512 * (bestLag env : ℚ))

/-- Modelled from the spec: beat instants — local maxima of the onset
envelope (a simple stand-in for the dynamic-programming beat picker; no claim
depends on the beat values). -/
def beatPeaks (env : List ℚ) : List ℕ :=
  (List.range env.length).filter
    (fun t => decide (env.getD (t - 1) 0 < env.getD t 0) &&
              decide (env.getD (t + 1) 0 < env.getD t 0))

/-- Error taxonomy of the pipeline (spec section 7): `notFound` models the
source's FileNotFoundError (line 16), `decodeError` and `emptySignal` model
the spec's DecodeError and EmptySignalError for the library calls whose code
is not part of this repository. -/
inductive Err where
  | notFound
  | decodeError
  | emptySignal
deriving DecidableEq, Repr

/-- The feature bundle returned by `extract_audio_features`
(source lines 52-62). -/
structure Features where
  mel_spectrogram : List (List ℚ)
  tempo : ℚ
  beats : List ℕ
  pitch_content : List (List ℚ)
  timbre : List (List ℚ)
  brightness : List ℚ
  volume : List ℚ
  onsets : List ℚ
  transitions : List ℚ

/-- The successful branch of the feature extraction (source lines 24-62):
mel spectrogram in dB with ref = max of the grid, tempo and beats from the
onset envelope, chroma, timbral coefficients, centroid brightness, min-max
normalized RMS volume (lines 39-43), onsets and zero-crossing transitions. -/
def featuresOf (D : DSP) (w : List ℚ) (sr : ℚ) : Features :=
  { mel_spectrogram := power_to_db D.log10 (melGrid D w)
    tempo := tempoOf sr (onsetSeq D w)
    beats := beatPeaks (onsetSeq D w)
    pitch_content := (powerGrid D w).map (chromaRow D)
    timbre := (melGrid D w).map (mfccRow D)
    brightness := brightnessSeq D w sr
    volume := volume_envelope (rmsSeq D.sqrt w)
    onsets := onsetSeq D w
    transitions := zcrSeq w }

/-- Feature extraction (source lines 21-62).  Modelled from the spec: a
waveform of zero length makes the spectral engine fail with EmptySignalError;
every non-empty waveform yields the full bundle. -/
def extract_audio_features (D : DSP) (w : List ℚ) (sr : ℚ) : Except Err Features :=
  if w = [] then Except.error Err.emptySignal else Except.ok (featuresOf D w sr)

/-- The loader's collaborators: path existence (os.path.exists, line 15) and
the decoding library.  Modelled from the spec: `decode path sr` returns the
waveform decoded and resampled to `sr`, or none on a codec failure. -/
structure FS where
  pathExists : String → Bool
  decode : String → ℚ → Option (List ℚ)

/-- Source lines 14-19: `load_audio` raises FileNotFoundError (modelled as
`Err.notFound`) when the path does not exist, before any decode attempt, and
otherwise returns the decoded signal together with the target sample rate. -/
def load_audio (fs : FS) (audio_path : String) (target_sr : ℚ) :
    Except Err (List ℚ × ℚ) :=
  if fs.pathExists audio_path then
    match fs.decode audio_path target_sr with
    | some w => Except.ok (w, target_sr)
    | none => Except.error Err.decodeError
  else Except.error Err.notFound

/-- Source lines 107-112: `analyze_music_file` calls `load_audio(file_path)`
with the default target sample rate 22050 (it passes no rate), then extracts
the features.  The `output_dir`/`no_plot` arguments only affect plotting. -/
def analyze_music_file (D : DSP) (fs : FS) (file_path : String)
    (output_dir : Option String) (no_plot : Bool) : Except Err (Features × ℚ) :=
  match load_audio fs file_path 22050 with
  | Except.error e => Except.error e
  | Except.ok (signal, sample_rate) =>
      match extract_audio_features D signal sample_rate with
      | Except.error e => Except.error e
      | Except.ok features => Except.ok (features, sample_rate)

/-- The parsed CLI arguments (source lines 138-146): input path, optional
output directory, sample-rate override (default 22050) and the no-plot flag. -/
structure Args where
  input_file : String
  output : Option String
  sample_rate : ℚ
  no_plot : Bool

/-- Source lines 137-148: `main` parses the arguments and then calls
`analyze_music_file(args.input_file, args.output, args.no_plot)` — the parsed
`args.sample_rate` is not forwarded. -/
def main (D : DSP) (fs : FS) (args : Args) : Except Err (Features × ℚ) :=
  analyze_music_file D fs args.input_file args.output args.no_plot

section NormalizerLemmas

theorem volume_range_nonneg (raw : List ℚ) (h : raw ≠ []) : 0 ≤ volume_range raw :=
  sub_nonneg.2 (npMin_le_npMax raw h)

theorem volume_range_pos (raw : List ℚ) (a b : ℚ) (ha : a ∈ raw) (hb : b ∈ raw)
    (hab : a ≠ b) : 0 < volume_range raw := by
  have hne : raw ≠ [] := List.ne_nil_of_mem ha
  rcases lt_or_eq_of_le (volume_range_nonneg raw hne) with h | h
  · exact h
  · exfalso
    have hmm : npMax raw = npMin raw := by
      have := h.symm
      unfold volume_range at this
      linarith [sub_eq_zero.1 this]
    have ha1 : a = npMin raw :=
      le_antisymm (hmm ▸ le_npMax raw a ha) (npMin_le raw a ha)
    have hb1 : b = npMin raw :=
      le_antisymm (hmm ▸ le_npMax raw b hb) (npMin_le raw b hb)
    exact hab (ha1.trans hb1.symm)

theorem normalizer_monotone (m r : ℚ) (hr : 0 < r) :
    Monotone (fun x : ℚ => (x - m) / r) := by
  intro x y hxy
  have h1 : x - m ≤ y - m := sub_le_sub_right hxy m
  exact div_le_div_of_nonneg_right h1 hr.le

end NormalizerLemmas

/-- C4: the loudness normalizer maps the raw RMS sequence x to
(x - min x) / (max x - min x); every non-constant sequence is rescaled so its
minimum is exactly 0 and its maximum exactly 1, and every constant sequence
(including all-zero, where max - min = 0) is returned unchanged, so the
division by zero never happens. -/
theorem C4_volume_envelope_minmax (raw : List ℚ) :
    ((∃ a ∈ raw, ∃ b ∈ raw, a ≠ b) →
      npMin (volume_envelope raw) = 0 ∧ npMax (volume_envelope raw) = 1) ∧
    ((∀ a ∈ raw, ∀ b ∈ raw, a = b) → volume_envelope raw = raw) := by
  constructor
  · rintro ⟨a, ha, b, hb, hab⟩
    have hne : raw ≠ [] := List.ne_nil_of_mem ha
    have hr : 0 < volume_range raw := volume_range_pos raw a b ha hb hab
    have hr0 : volume_range raw ≠ 0 := ne_of_gt hr
    have hmono := normalizer_monotone (npMin raw) (volume_range raw) hr
    have henv : volume_envelope raw =
        raw.map (fun x => (x - npMin raw) / volume_range raw) := by
      unfold volume_envelope
      rw [if_neg hr0]
    constructor
    · rw [henv, npMin_map _ (fun x y => hmono.map_min) raw hne]
      simp
    · rw [henv, npMax_map _ (fun x y => hmono.map_max) raw hne]
      show (npMax raw - npMin raw) / volume_range raw = 1
      unfold volume_range
      exact div_self (by unfold volume_range at hr0; exact hr0)
  · intro hconst
    match raw with
    | [] => simp [volume_envelope, volume_range, npMax, npMin]
    | x :: xs =>
      have hne : (x :: xs) ≠ ([] : List ℚ) := by simp
      have h1 : npMax (x :: xs) = npMin (x :: xs) :=
        hconst _ (npMax_mem _ hne) _ (npMin_mem _ hne)
      unfold volume_envelope
      rw [if_pos (by unfold volume_range; rw [h1]; ring)]

/-- C4 witness: a concrete non-constant sequence is rescaled to attain
minimum 0 and maximum 1. -/
theorem C4_volume_envelope_minmax_witness :
    npMin (volume_envelope [0, 1]) = 0 ∧ npMax (volume_envelope [0, 1]) = 1 :=
  (C4_volume_envelope_minmax [0, 1]).1 (by decide)

/-- C10: the loudness normalization step preserves the length of the RMS
sequence and is order-preserving: raw[i] ≤ raw[j] implies
normalized[i] ≤ normalized[j]. -/
theorem C10_volume_envelope_length_mono (raw : List ℚ) :
    (volume_envelope raw).length = raw.length ∧
    ∀ i j : ℕ, i < raw.length → j < raw.length →
      raw.getD i 0 ≤ raw.getD j 0 →
      (volume_envelope raw).getD i 0 ≤ (volume_envelope raw).getD j 0 := by
  unfold volume_envelope
  by_cases h : volume_range raw = 0
  · rw [if_pos h]
    exact ⟨rfl, fun i j hi hj hij => hij⟩
  · rw [if_neg h]
    have hne : raw ≠ [] := by
      intro hnil
      apply h
      subst hnil
      simp [volume_range, npMax, npMin]
    have hr : 0 < volume_range raw :=
      lt_of_le_of_ne (volume_range_nonneg raw hne) (Ne.symm h)
    refine ⟨List.length_map raw _, fun i j hi hj hij => ?_⟩
    rw [List.getD_eq_getElem _ _ (by simpa using hi),
        List.getD_eq_getElem _ _ (by simpa using hj),
        List.getElem_map, List.getElem_map]
    apply normalizer_monotone (npMin raw) (volume_range raw) hr
    rw [← List.getD_eq_getElem raw 0 hi, ← List.getD_eq_getElem raw 0 hj]
    exact hij

/-- C10 witness: length preservation and order preservation on a concrete
sequence and index pair. -/
theorem C10_volume_envelope_length_mono_witness :
    (volume_envelope [1, 2]).getD 0 0 ≤ (volume_envelope [1, 2]).getD 1 0 :=
  (C10_volume_envelope_length_mono [1, 2]).2 0 1 (by decide) (by decide) (by decide)

/-- Concrete DSP parameters used by witnesses: one transform bin whose real
part reads the padded sample at offset 1024 (the first waveform sample), one
mel band with unit weight, and `x - 1` as a monotone stand-in for log10. -/
def D0 : DSP :=
  { nBins := 1
    re := fun _ _ => 1
    im := fun _ _ => 0
    win := fun i => if i = 1024 then 1 else 0
    nMels := 1
    melW := fun _ _ => 1
    fold := fun _ _ => 1
    dct := fun _ _ => 1
    sqrt := fun x => x
    log10 := fun x => x - 1 }

/-- Concrete filesystem used by witnesses: every path exists and decodes to a
one-sample signal. -/
def fsOk : FS := { pathExists := fun _ => true, decode := fun _ _ => some [0] }

/-- Concrete parsed CLI arguments with a 44100 Hz sample-rate override. -/
def argsSr : Args :=
  { input_file := "song.wav", output := none, sample_rate := 44100, no_plot := true }

/-- C1 amended: with the centered framing of the spec (zero-padding of 1024
samples on each side, window 2048, hop 512) the RMS and zero-crossing-rate
sequences each have 1 + floor(N / 512) frames, not 1 + floor((N - 2048) / 512). -/
theorem C1_frame_count (sqrt : ℚ → ℚ) (w : List ℚ) :
    (rmsSeq sqrt w).length = 1 + w.length / 512 ∧
    (zcrSeq w).length = 1 + w.length / 512 := by
  have hlen : (pad w).length - 2048 = w.length := by
    unfold pad
    rw [List.length_append, List.length_append, List.length_replicate]
    omega
  have hfc : frameCount w = 1 + w.length / 512 := by
    unfold frameCount
    rw [hlen]
  constructor
  · unfold rmsSeq
    rw [List.length_map, List.length_range, hfc]
  · unfold zcrSeq
    rw [List.length_map, List.length_range, hfc]

/-- C1 counterexample: a 2048-sample waveform yields 5 frames, while the
claimed formula 1 + floor((N - 2048)/512) gives 1. -/
theorem C1_counterexample :
    ¬ ((rmsSeq (fun x => x) (List.replicate 2048 (0:ℚ))).length =
         1 + (2048 - 2048) / 512 ∧
       (zcrSeq (List.replicate 2048 (0:ℚ))).length = 1 + (2048 - 2048) / 512) := by
  have hfc : frameCount (List.replicate 2048 (0:ℚ)) = 5 := by
    unfold frameCount pad
    rw [List.length_append, List.length_append, List.length_replicate,
        List.length_replicate]
  intro hcl
  obtain ⟨h1, h2⟩ := hcl
  rw [show (rmsSeq (fun x => x) (List.replicate 2048 (0:ℚ))).length =
        frameCount (List.replicate 2048 (0:ℚ)) by
      unfold rmsSeq
      rw [List.length_map, List.length_range], hfc] at h1
  norm_num at h1

/-- C2: whatever sample-rate override is parsed, every successful run of
`main` analyzes audio loaded at the default rate 22050 — `main` drops
`args.sample_rate`, so the loader never sees the override. -/
theorem C2_sample_rate_dropped (D : DSP) (fs : FS) (args : Args)
    (p : Features × ℚ) (h : main D fs args = Except.ok p) : p.2 = 22050 := by
  unfold main analyze_music_file at h
  cases hload : load_audio fs args.input_file 22050 with
  | error e =>
      rw [hload] at h
      exact absurd h (by simp)
  | ok pr =>
      obtain ⟨w, sr⟩ := pr
      rw [hload] at h
      dsimp only at h
      have hsr : sr = 22050 := by
        unfold load_audio at hload
        by_cases hex : fs.pathExists args.input_file
        · rw [if_pos hex] at hload
          cases hdec : fs.decode args.input_file 22050 with
          | none => rw [hdec] at hload; exact absurd hload (by simp)
          | some w0 =>
              rw [hdec] at hload
              have h2 := Except.ok.inj hload
              exact ((Prod.ext_iff.1 h2).2).symm
        · rw [if_neg hex] at hload
          exact absurd hload (by simp)
      cases hext : extract_audio_features D w sr with
      | error e =>
          rw [hext] at h
          exact absurd h (by simp)
      | ok f =>
          rw [hext] at h
          dsimp only at h
          rw [← Except.ok.inj h]
          exact hsr

/-- C2 witness: a run with a 44100 Hz override succeeds and still carries
sample rate 22050 out of the loader. -/
theorem C2_sample_rate_dropped_witness :
    main D0 fsOk argsSr = Except.ok (featuresOf D0 [0] 22050, (22050 : ℚ)) ∧
    (featuresOf D0 [0] 22050, (22050 : ℚ)).2 = 22050 :=
  ⟨rfl, C2_sample_rate_dropped D0 fsOk argsSr _ rfl⟩

/-- C3: the pipeline fails with EmptySignalError exactly on a zero-length
waveform — an empty waveform yields the error, any error it yields is
EmptySignalError on an empty waveform (no other error states), and the error
surfaces through `analyze_music_file` to the caller. -/
theorem C3_empty_signal (D : DSP) (w : List ℚ) (sr : ℚ) :
    (w = [] → extract_audio_features D w sr = Except.error Err.emptySignal) ∧
    (∀ e, extract_audio_features D w sr = Except.error e →
      w = [] ∧ e = Err.emptySignal) ∧
    (∀ fs : FS, ∀ file : String, ∀ o : Option String, ∀ np : Bool,
      fs.pathExists file = true → fs.decode file 22050 = some w → w = [] →
      analyze_music_file D fs file o np = Except.error Err.emptySignal) := by
  refine ⟨?_, ?_, ?_⟩
  · intro hw
    subst hw
    simp [extract_audio_features]
  · intro e he
    unfold extract_audio_features at he
    by_cases hw : w = []
    · rw [if_pos hw] at he
      exact ⟨hw, (Except.error.inj he).symm⟩
    · rw [if_neg hw] at he
      exact absurd he (by simp)
  · intro fs file o np hex hdec hw
    subst hw
    unfold analyze_music_file load_audio
    simp [hex, hdec, extract_audio_features]

/-- C3 witness: the empty waveform produces EmptySignalError. -/
theorem C3_empty_signal_witness :
    extract_audio_features D0 [] 22050 = Except.error Err.emptySignal :=
  (C3_empty_signal D0 [] 22050).1 rfl

/-- C5: for every path that does not exist, the pipeline fails with
NotFoundError; the decoder and the feature extractor are arbitrary and never
consulted, so the failure precedes any decode attempt or feature computation. -/
theorem C5_not_found (D : DSP) (pathExists : String → Bool)
    (decode : String → ℚ → Option (List ℚ)) (file_path : String)
    (output_dir : Option String) (no_plot : Bool)
    (h : pathExists file_path = false) :
    analyze_music_file D ⟨pathExists, decode⟩ file_path output_dir no_plot =
      Except.error Err.notFound := by
  unfold analyze_music_file load_audio
  simp [h]

/-- C5 witness: a missing path yields NotFoundError on a concrete filesystem. -/
theorem C5_not_found_witness :
    analyze_music_file D0 ⟨fun _ => false, fun _ _ => some [0]⟩
      "missing.wav" none false = Except.error Err.notFound :=
  C5_not_found D0 (fun _ => false) (fun _ _ => some [0]) "missing.wav" none false rfl

theorem zcrFrame_unit (f : List ℚ) : 0 ≤ zcrFrame f ∧ zcrFrame f ≤ 1 := by
  unfold zcrFrame
  constructor
  · exact div_nonneg (Nat.cast_nonneg _) (Nat.cast_nonneg _)
  · rcases Nat.eq_zero_or_pos (f.length - 1) with hp | hp
    · rw [hp]
      norm_num
    · rw [div_le_one (by exact_mod_cast hp)]
      have hc : (f.zip f.tail).countP
          (fun p => decide (p.1 < 0) != decide (p.2 < 0)) ≤ f.length - 1 := by
        calc (f.zip f.tail).countP (fun p => decide (p.1 < 0) != decide (p.2 < 0))
            ≤ (f.zip f.tail).length := List.countP_le_length _
          _ = min f.length f.tail.length := List.length_zip f f.tail
          _ = f.length - 1 := by
              rw [List.length_tail]
              exact min_eq_right (Nat.sub_le _ _)
      exact_mod_cast hc

/-- C8: every frame of the zero-crossing-rate sequence lies in [0, 1] for
every input waveform. -/
theorem C8_zcr_in_unit_interval (w : List ℚ) :
    ∀ v ∈ zcrSeq w, 0 ≤ v ∧ v ≤ 1 := by
  intro v hv
  unfold zcrSeq at hv
  rcases List.mem_map.1 hv with ⟨t, _, ht⟩
  rw [← ht]
  exact zcrFrame_unit (frame w t)

/-- C8 witness: the single frame of a one-sample waveform has its
zero-crossing rate in [0, 1]. -/
theorem C8_zcr_in_unit_interval_witness :
    0 ≤ zcrFrame (frame [1] 0) ∧ zcrFrame (frame [1] 0) ≤ 1 :=
  C8_zcr_in_unit_interval [1] (zcrFrame (frame [1] 0)) (by
    have hfc : frameCount [1] = 1 := by norm_num [frameCount, pad]
    simp [zcrSeq, hfc])

/-- C9: a frame whose magnitude spectrum is all zero has spectral centroid 0 —
the division by the magnitude sum is guarded when the denominator is 0, and
over exact rationals no NaN or infinity can arise. -/
theorem C9_centroid_zero_frame (freqs mags : List ℚ) (h : ∀ m ∈ mags, m = 0) :
    centroidFrame freqs mags = 0 := by
  unfold centroidFrame
  rw [if_pos (List.sum_eq_zero h)]

/-- C9 witness: a concrete all-zero magnitude frame has centroid 0. -/
theorem C9_centroid_zero_frame_witness : centroidFrame [1, 2] [0, 0] = 0 :=
  C9_centroid_zero_frame [1, 2] [0, 0] (by decide)

section SilenceLemmas

theorem wdotAux_eq_zero (c : ℕ → ℚ) (i : ℕ) (xs : List ℚ) (h : ∀ x ∈ xs, x = 0) :
    wdotAux c i xs = 0 := by
  induction xs generalizing i with
  | nil => rfl
  | cons x t ih =>
    have hx : x = 0 := h x (List.mem_cons_self x t)
    rw [wdotAux, hx, ih (i + 1) (fun y hy => h y (List.mem_cons_of_mem x hy))]
    ring

theorem wdot_eq_zero (c : ℕ → ℚ) (xs : List ℚ) (h : ∀ x ∈ xs, x = 0) :
    wdot c xs = 0 := wdotAux_eq_zero c 0 xs h

theorem wdotAux_nonneg (c : ℕ → ℚ) (i : ℕ) (xs : List ℚ) (hc : ∀ j, 0 ≤ c j)
    (hx : ∀ x ∈ xs, 0 ≤ x) : 0 ≤ wdotAux c i xs := by
  induction xs generalizing i with
  | nil => exact le_refl 0
  | cons x t ih =>
    rw [wdotAux]
    have h1 : 0 ≤ c i * x := mul_nonneg (hc i) (hx x (List.mem_cons_self x t))
    have h2 := ih (i + 1) (fun y hy => hx y (List.mem_cons_of_mem x hy))
    linarith

theorem wdot_nonneg (c : ℕ → ℚ) (xs : List ℚ) (hc : ∀ j, 0 ≤ c j)
    (hx : ∀ x ∈ xs, 0 ≤ x) : 0 ≤ wdot c xs := wdotAux_nonneg c 0 xs hc hx

theorem wdotAux_append (c : ℕ → ℚ) (i : ℕ) (xs ys : List ℚ) :
    wdotAux c i (xs ++ ys) = wdotAux c i xs + wdotAux c (i + xs.length) ys := by
  induction xs generalizing i with
  | nil => simp [wdotAux]
  | cons x t ih =>
    rw [List.cons_append, wdotAux, wdotAux, ih (i + 1)]
    have : i + 1 + t.length = i + (x :: t).length := by
      rw [List.length_cons]
      omega
    rw [this]
    ring

theorem mem_frame_silence (n t : ℕ) (x : ℚ)
    (hx : x ∈ frame (List.replicate n (0:ℚ)) t) : x = 0 := by
  unfold frame at hx
  have h1 : x ∈ pad (List.replicate n (0:ℚ)) :=
    List.drop_subset _ _ (List.take_subset _ _ hx)
  unfold pad at h1
  rcases List.mem_append.1 h1 with h2 | h2
  · rcases List.mem_append.1 h2 with h3 | h3
    · exact List.eq_of_mem_replicate h3
    · exact List.eq_of_mem_replicate h3
  · exact List.eq_of_mem_replicate h2

theorem powerEntry_silence (D : DSP) (n k t : ℕ) :
    powerEntry D (List.replicate n (0:ℚ)) k t = 0 := by
  unfold powerEntry
  rw [wdot_eq_zero _ _ (mem_frame_silence n t),
      wdot_eq_zero _ _ (mem_frame_silence n t)]
  norm_num

theorem powerGrid_silence (D : DSP) (n : ℕ) :
    ∀ row ∈ powerGrid D (List.replicate n (0:ℚ)), ∀ v ∈ row, v = 0 := by
  intro row hrow v hv
  unfold powerGrid at hrow
  rcases List.mem_map.1 hrow with ⟨t, _, ht⟩
  rw [← ht] at hv
  unfold powerRow at hv
  rcases List.mem_map.1 hv with ⟨k, _, hk⟩
  rw [← hk]
  exact powerEntry_silence D n k t

theorem melGrid_silence (D : DSP) (n : ℕ) :
    ∀ row ∈ melGrid D (List.replicate n (0:ℚ)), ∀ v ∈ row, v = 0 := by
  intro row hrow v hv
  unfold melGrid at hrow
  rcases List.mem_map.1 hrow with ⟨prow, hprow, hp⟩
  rw [← hp] at hv
  unfold melRow at hv
  rcases List.mem_map.1 hv with ⟨m, _, hm⟩
  rw [← hm]
  exact wdot_eq_zero _ _ (powerGrid_silence D n prow hprow)

theorem centroidFrame_zeros (freqs mags : List ℚ) (h : ∀ m ∈ mags, m = 0) :
    centroidFrame freqs mags = 0 := by
  unfold centroidFrame
  rw [if_pos (List.sum_eq_zero h)]

theorem zcrFrame_zeros (f : List ℚ) (h : ∀ x ∈ f, x = 0) : zcrFrame f = 0 := by
  unfold zcrFrame
  have hc : (f.zip f.tail).countP
      (fun p => decide (p.1 < 0) != decide (p.2 < 0)) = 0 := by
    rw [List.countP_eq_zero]
    rintro ⟨a, b⟩ hab
    have ha : a = 0 := h a (List.of_mem_zip hab).1
    have hb : b = 0 := h b (List.mem_of_mem_tail (List.of_mem_zip hab).2)
    subst ha
    subst hb
    simp
  rw [hc]
  norm_num

theorem rmsSeq_silence (D : DSP) (n : ℕ) (hsq : D.sqrt 0 = 0) :
    ∀ x ∈ rmsSeq D.sqrt (List.replicate n (0:ℚ)), x = 0 := by
  intro x hx
  unfold rmsSeq at hx
  rcases List.mem_map.1 hx with ⟨t, _, ht⟩
  have hms : meanSq (frame (List.replicate n (0:ℚ)) t) = 0 := by
    unfold meanSq
    rw [List.sum_eq_zero, zero_div]
    intro y hy
    rcases List.mem_map.1 hy with ⟨z, hz, hzy⟩
    rw [← hzy, mem_frame_silence n t z hz]
    ring
  rw [← ht, hms, hsq]

theorem onsetSeq_silence (D : DSP) (n : ℕ) :
    ∀ x ∈ onsetSeq D (List.replicate n (0:ℚ)), x = 0 := by
  intro x hx
  unfold onsetSeq at hx
  rcases List.mem_map.1 hx with ⟨t, _, ht⟩
  rw [← ht]
  cases t with
  | zero => rfl
  | succ s =>
    unfold fluxAt
    apply List.sum_eq_zero
    intro y hy
    rcases List.mem_map.1 hy with ⟨k, _, hk⟩
    rw [← hk, powerEntry_silence, powerEntry_silence]
    simp

end SilenceLemmas

/-- C6: on an all-zero (silent) non-empty waveform no extractor fails and,
over exact rationals, no NaN or infinity can arise: the pipeline succeeds,
brightness, chroma and timbral outputs are all-zero series, tempo is the
documented silence placeholder 0, the mean of the normalized loudness is 0
and the mean of the zero-crossing (transitions) sequence is 0. -/
theorem C6_silence (D : DSP) (n : ℕ) (sr : ℚ) (hn : 0 < n) (hsq : D.sqrt 0 = 0) :
    extract_audio_features D (List.replicate n (0:ℚ)) sr =
      Except.ok (featuresOf D (List.replicate n (0:ℚ)) sr) ∧
    (∀ v ∈ (featuresOf D (List.replicate n (0:ℚ)) sr).brightness, v = 0) ∧
    (∀ row ∈ (featuresOf D (List.replicate n (0:ℚ)) sr).pitch_content,
      ∀ v ∈ row, v = 0) ∧
    (∀ row ∈ (featuresOf D (List.replicate n (0:ℚ)) sr).timbre, ∀ v ∈ row, v = 0) ∧
    (featuresOf D (List.replicate n (0:ℚ)) sr).tempo = 0 ∧
    npMean (featuresOf D (List.replicate n (0:ℚ)) sr).volume = 0 ∧
    npMean (featuresOf D (List.replicate n (0:ℚ)) sr).transitions = 0 := by
  have hraw : ∀ x ∈ rmsSeq D.sqrt (List.replicate n (0:ℚ)), x = 0 :=
    rmsSeq_silence D n hsq
  have htrans : ∀ x ∈ zcrSeq (List.replicate n (0:ℚ)), x = 0 := by
    intro x hx
    unfold zcrSeq at hx
    rcases List.mem_map.1 hx with ⟨t, _, ht⟩
    rw [← ht]
    exact zcrFrame_zeros _ (mem_frame_silence n t)
  refine ⟨?_, ?_, ?_, ?_, ?_, ?_, ?_⟩
  · unfold extract_audio_features
    rw [if_neg]
    intro hrep
    have := congrArg List.length hrep
    rw [List.length_replicate] at this
    exact absurd this (Nat.pos_iff_ne_zero.1 hn)
  · intro v hv
    show v = 0
    unfold featuresOf brightnessSeq at hv
    rcases List.mem_map.1 hv with ⟨prow, hprow, hp⟩
    rw [← hp]
    apply centroidFrame_zeros
    intro m hm
    rcases List.mem_map.1 hm with ⟨z, hz, hzm⟩
    rw [← hzm, powerGrid_silence D n prow hprow z hz, hsq]
  · intro row hrow v hv
    unfold featuresOf at hrow
    rcases List.mem_map.1 hrow with ⟨prow, hprow, hp⟩
    rw [← hp] at hv
    unfold chromaRow at hv
    rcases List.mem_map.1 hv with ⟨c, _, hc⟩
    rw [← hc]
    exact wdot_eq_zero _ _ (powerGrid_silence D n prow hprow)
  · intro row hrow v hv
    unfold featuresOf at hrow
    rcases List.mem_map.1 hrow with ⟨mrow, hmrow, hm⟩
    rw [← hm] at hv
    unfold mfccRow at hv
    rw [if_pos (melGrid_silence D n mrow hmrow)] at hv
    exact List.eq_of_mem_replicate hv
  · show tempoOf sr (onsetSeq D (List.replicate n (0:ℚ))) = 0
    unfold tempoOf
    rw [if_pos (onsetSeq_silence D n)]
  · show npMean (volume_envelope (rmsSeq D.sqrt (List.replicate n (0:ℚ)))) = 0
    have hrange : volume_range (rmsSeq D.sqrt (List.replicate n (0:ℚ))) = 0 := by
      unfold volume_range
      rw [npMax_eq_zero _ hraw, npMin_eq_zero _ hraw]
      ring
    unfold volume_envelope
    rw [if_pos hrange]
    unfold npMean
    rw [List.sum_eq_zero hraw, zero_div]
  · show npMean (zcrSeq (List.replicate n (0:ℚ))) = 0
    unfold npMean
    rw [List.sum_eq_zero htrans, zero_div]

/-- C6 witness: the silence guarantees instantiated on a concrete one-sample
silent waveform with the concrete witness DSP parameters. -/
theorem C6_silence_witness :
    (featuresOf D0 (List.replicate 1 (0:ℚ)) 22050).tempo = 0 ∧
    npMean (featuresOf D0 (List.replicate 1 (0:ℚ)) 22050).volume = 0 ∧
    npMean (featuresOf D0 (List.replicate 1 (0:ℚ)) 22050).transitions = 0 := by
  have h := C6_silence D0 1 22050 (by decide) rfl
  exact ⟨h.2.2.2.2.1, h.2.2.2.2.2.1, h.2.2.2.2.2.2⟩

section DbLemmas

theorem wdot_coef_zero (c : ℕ → ℚ) (h : ∀ j, c j = 0) (xs : List ℚ) :
    wdot c xs = 0 := by
  unfold wdot
  generalize 0 = i
  induction xs generalizing i with
  | nil => rfl
  | cons x t ih =>
    rw [wdotAux, h i, ih (i + 1)]
    ring

theorem powerEntry_nonneg (D : DSP) (w : List ℚ) (k t : ℕ) :
    0 ≤ powerEntry D w k t := add_nonneg (sq_nonneg _) (sq_nonneg _)

theorem powerGrid_nonneg (D : DSP) (w : List ℚ) :
    ∀ row ∈ powerGrid D w, ∀ v ∈ row, 0 ≤ v := by
  intro row hrow v hv
  unfold powerGrid at hrow
  rcases List.mem_map.1 hrow with ⟨t, _, ht⟩
  rw [← ht] at hv
  unfold powerRow at hv
  rcases List.mem_map.1 hv with ⟨k, _, hk⟩
  rw [← hk]
  exact powerEntry_nonneg D w k t

theorem melGrid_nonneg (D : DSP) (w : List ℚ) (hW : ∀ m k, 0 ≤ D.melW m k) :
    ∀ row ∈ melGrid D w, ∀ v ∈ row, 0 ≤ v := by
  intro row hrow v hv
  unfold melGrid at hrow
  rcases List.mem_map.1 hrow with ⟨prow, hprow, hp⟩
  rw [← hp] at hv
  unfold melRow at hv
  rcases List.mem_map.1 hv with ⟨m, _, hm⟩
  rw [← hm]
  exact wdot_nonneg _ _ (fun k => hW m k) (powerGrid_nonneg D w prow hprow)

theorem flatten_map_map (f : ℚ → ℚ) (g : List (List ℚ)) :
    (g.map (List.map f)).flatten = g.flatten.map f := by
  induction g with
  | nil => rfl
  | cons r t ih =>
    rw [List.map_cons, List.flatten_cons, List.flatten_cons, List.map_append, ih]

end DbLemmas

/-- C7: the mel dB conversion uses the maximum energy of the grid itself as
the 0 dB reference (`10 * log10 (value / reference)` with reference =
max of grid, source line 25): whenever the grid maximum is positive
(non-silent input), every entry of the returned mel_spectrogram is ≤ 0 dB and
its maximum entry equals 0 dB, for every monotone log10 with log10 1 = 0. -/
theorem C7_mel_db_ref_max (D : DSP) (w : List ℚ) (sr : ℚ)
    (hW : ∀ m k, 0 ≤ D.melW m k)
    (hmono : ∀ a b : ℚ, 0 < a → a ≤ b → D.log10 a ≤ D.log10 b)
    (hone : D.log10 1 = 0) (hzero : D.log10 0 ≤ 0)
    (hpos : 0 < gridMax (melGrid D w)) :
    (∀ row ∈ (featuresOf D w sr).mel_spectrogram, ∀ v ∈ row, v ≤ 0) ∧
    gridMax (featuresOf D w sr).mel_spectrogram = 0 := by
  have hdb : (featuresOf D w sr).mel_spectrogram =
      (melGrid D w).map (List.map
        (fun v => 10 * D.log10 (v / gridMax (melGrid D w)))) := rfl
  have hub : ∀ v ∈ (melGrid D w).flatten,
      10 * D.log10 (v / gridMax (melGrid D w)) ≤ 0 := by
    intro v hv
    rcases List.mem_flatten.1 hv with ⟨row, hrow, hvr⟩
    have hvn : 0 ≤ v := melGrid_nonneg D w hW row hrow v hvr
    have hvm : v ≤ gridMax (melGrid D w) := le_npMax _ v hv
    rcases eq_or_lt_of_le hvn with hv0 | hv0
    · rw [← hv0, zero_div]
      nlinarith [hzero]
    · have hq1 : v / gridMax (melGrid D w) ≤ 1 := (div_le_one hpos).2 hvm
      have hq0 : 0 < v / gridMax (melGrid D w) := div_pos hv0 hpos
      have := hmono _ 1 hq0 hq1
      rw [hone] at this
      nlinarith [this]
  constructor
  · intro row hrow v hv
    rw [hdb] at hrow
    rcases List.mem_map.1 hrow with ⟨row0, hrow0, hr⟩
    rw [← hr] at hv
    rcases List.mem_map.1 hv with ⟨v0, hv0, hvv⟩
    rw [← hvv]
    exact hub v0 (List.mem_flatten.2 ⟨row0, hrow0, hv0⟩)
  · have hne : (melGrid D w).flatten ≠ [] := by
      intro hnil
      rw [show gridMax (melGrid D w) = npMax (melGrid D w).flatten from rfl,
          hnil] at hpos
      exact absurd hpos (lt_irrefl 0)
    have hrefmem : gridMax (melGrid D w) ∈ (melGrid D w).flatten :=
      npMax_mem _ hne
    have hrefdb : 10 * D.log10 (gridMax (melGrid D w) / gridMax (melGrid D w)) = 0 := by
      rw [div_self (ne_of_gt hpos), hone]
      ring
    rw [hdb]
    show npMax ((melGrid D w).map (List.map
      (fun v => 10 * D.log10 (v / gridMax (melGrid D w))))).flatten = 0
    rw [flatten_map_map]
    apply le_antisymm
    · apply npMax_le
      · intro hnil
        exact hne (List.map_eq_nil_iff.1 hnil)
      · intro x hx
        rcases List.mem_map.1 hx with ⟨v, hv, hvx⟩
        rw [← hvx]
        exact hub v hv
    · have hmem := List.mem_map_of_mem
        (fun v => 10 * D.log10 (v / gridMax (melGrid D w))) hrefmem
      rw [show (fun v => 10 * D.log10 (v / gridMax (melGrid D w)))
            (gridMax (melGrid D w)) = 0 from hrefdb] at hmem
      exact le_npMax _ 0 hmem

/-- C7 witness: on the one-sample waveform with the concrete witness DSP
parameters the dB-converted mel grid has maximum exactly 0. -/
theorem C7_mel_db_ref_max_witness :
    gridMax (featuresOf D0 [1] 22050).mel_spectrogram = 0 := by
  have hframe : frame [1] 0 =
      (List.replicate 1024 (0:ℚ) ++ [1]) ++ List.replicate 1023 0 := by
    unfold frame pad
    rw [Nat.mul_zero, List.drop_zero]
    rw [show (2048:ℕ) = (List.replicate 1024 (0:ℚ) ++ [1]).length + 1023 by
      rw [List.length_append, List.length_replicate, List.length_singleton]]
    rw [List.take_append, List.take_replicate]
    norm_num
  have hzeros1 : ∀ x ∈ List.replicate 1024 (0:ℚ), x = 0 :=
    fun x hx => List.eq_of_mem_replicate hx
  have hzeros2 : ∀ x ∈ List.replicate 1023 (0:ℚ), x = 0 :=
    fun x hx => List.eq_of_mem_replicate hx
  have hwdot1 : wdot (fun i => D0.win i * D0.re 0 i) (frame [1] 0) = 1 := by
    rw [hframe]
    unfold wdot
    rw [wdotAux_append, wdotAux_append, wdotAux_eq_zero _ _ _ hzeros1,
        wdotAux_eq_zero _ _ _ hzeros2]
    simp only [List.length_append, List.length_replicate, List.length_cons,
      List.length_nil]
    norm_num [wdotAux, D0]
  have hwdot2 : wdot (fun i => D0.win i * D0.im 0 i) (frame [1] 0) = 0 := by
    apply wdot_coef_zero
    intro j
    show (if j = 1024 then (1:ℚ) else 0) * 0 = 0
    ring
  have hpe : powerEntry D0 [1] 0 0 = 1 := by
    unfold powerEntry
    rw [hwdot1, hwdot2]
    norm_num
  have hfc1 : frameCount [1] = 1 := by
    unfold frameCount pad
    rw [List.length_append, List.length_append, List.length_replicate,
        List.length_singleton]
  have h01 : List.range 1 = [0] := rfl
  have hmel : melGrid D0 [1] = [[1]] := by
    unfold melGrid powerGrid powerRow melRow
    rw [hfc1]
    show ((List.range 1).map fun t => (List.range 1).map
        fun k => powerEntry D0 [1] k t).map
        (fun prow => (List.range 1).map fun m => wdot (fun k => D0.melW m k) prow)
      = [[1]]
    rw [h01, List.map_singleton, List.map_singleton, List.map_singleton,
        List.map_singleton, hpe]
    show [[wdot (fun k => (1:ℚ)) [1]]] = [[1]]
    norm_num [wdot, wdotAux]
  have hpos : 0 < gridMax (melGrid D0 [1]) := by
    rw [hmel]
    show (0:ℚ) < 1
    norm_num
  exact (C7_mel_db_ref_max D0 [1] 22050
    (fun m k => by show (0:ℚ) ≤ 1; norm_num)
    (fun a b ha hab => by show a - 1 ≤ b - 1; linarith)
    (by show (1:ℚ) - 1 = 0; norm_num)
    (by show (0:ℚ) - 1 ≤ 0; norm_num)
    hpos).2
